import Mathlib

/-!
Shallow embedding of the Starkweather beer tracker (`src/streamlit_app.py`).

The program persists a single JSON document `{"beers": [...], "available_beers": [...]}`
in a file. We model the file's content as `Option Data` (`none` = the file does not
exist), pure functions over that store stand in for the Python functions, and the
current date / date-time values produced by `datetime.now()` are passed as explicit
arguments. The JSON serialization performed by `json.dump` / `json.load` is modelled
at the level of a JSON syntax tree (`Json` below) by `encodeData` / `decodeData`.
-/

/-- A consumption record, as appended by `add_beer` (lines 33-37):
`{"name": ..., "date": ..., "timestamp": ...}`. -/
structure Record where
  name : String
  date : String
  timestamp : String
deriving DecidableEq, Repr

/-- The persisted document: `{"beers": [...], "available_beers": [...]}`. -/
structure Data where
  beers : List Record
  available_beers : List String
deriving DecidableEq, Repr

/-- `load_data` (lines 15-20): return the stored document, or the default empty
shape when the file does not exist. -/
def load_data (store : Option Data) : Data :=
  match store with
  | some d => d
  | none => { beers := [], available_beers := [] }

/-- `save_data` (lines 22-25): overwrite the file wholesale with the document;
the result is the new file content. -/
def save_data (data : Data) : Option Data :=
  some data

/-- `add_beer` (lines 27-38): load, default the date to the current date when
none is given, append one record stamped with the current date-time, save.
`now_date` models `datetime.now().strftime("%Y-%m-%d")` and `now_iso` models
`datetime.now().isoformat()`. -/
def add_beer (beer_name : String) (date : Option String) (now_date now_iso : String)
    (store : Option Data) : Option Data :=
  let data := load_data store
  let d := match date with
    | none => now_date
    | some x => x
  save_data { data with
    beers := data.beers ++ [{ name := beer_name, date := d, timestamp := now_iso }] }

/-- The fixed keyword list of line 60. -/
def beer_keywords : List String :=
  ["ipa", "stout", "lager", "pale", "ale", "pilsner", "sour", "porter", "wheat", "cider"]

/-- Substring test on character lists, modelling Python's `needle in hay`. -/
def containsSub (needle : List Char) : List Char → Bool
  | [] => needle.isEmpty
  | a :: t => needle.isPrefixOf (a :: t) || containsSub needle t

/-- `text.lower()`, character by character (the keywords and menu text are ASCII,
where Python's `str.lower` agrees with `Char.toLower`). -/
def lowerChars (s : String) : List Char :=
  s.data.map Char.toLower

/-- `keyword in text.lower()` of line 60. -/
def containsKeyword (text kw : String) : Bool :=
  containsSub kw.data (lowerChars text)

/-- The candidate filter of lines 58-60: the fragment is non-empty, its length is
strictly between 3 and 100, and it contains a beer keyword (case-insensitively)
or its length is strictly between 5 and 60. -/
def is_candidate (text : String) : Bool :=
  text != "" && decide (3 < text.length) && decide (text.length < 100) &&
    (beer_keywords.any (fun kw => containsKeyword text kw) ||
      (decide (5 < text.length) && decide (text.length < 60)))

/-- The candidate condition as the spec words it: length strictly between 3 and
100, and (a beer-style keyword occurs case-insensitively, or length strictly
between 5 and 60). -/
def candidateSpec (text : String) : Prop :=
  3 < text.length ∧ text.length < 100 ∧
    ((∃ kw ∈ beer_keywords, containsKeyword text kw = true) ∨
      (5 < text.length ∧ text.length < 60))

/-- The duplicate-removal loop of lines 64-69: keep the first occurrence of each
element not already in `seen`. Called with `seen = []`. -/
def dedupFirst (seen : List String) : List String → List String
  | [] => []
  | b :: rest => if b ∈ seen then dedupFirst seen rest else b :: dedupFirst (b :: seen) rest

/-- Outcome of the guarded network interaction of lines 42-49: either the scanned
tags' stripped text contents, or the exception message of any network, timeout or
HTTP-status failure raised inside the `try` block. -/
inductive HttpResponse where
  | ok (texts : List String)
  | failure (msg : String)

/-- What `fetch_starkweather_beers` produces: a returned list and the user-visible
`st.error` messages emitted. -/
structure FetchResult where
  beers : List String
  errors : List String
deriving DecidableEq, Repr

/-- `fetch_starkweather_beers` (lines 40-75): on failure, report the error to the
user and return the empty list; on success, filter the scanned texts with the
candidate heuristic, deduplicate preserving first-seen order, return the first 20. -/
def fetch_starkweather_beers (resp : HttpResponse) : FetchResult :=
  match resp with
  | .failure msg => { beers := [], errors := ["Error fetching beers: " ++ msg] }
  | .ok texts =>
      let beers := texts.filter (fun t => is_candidate t)
      let unique_beers := dedupFirst [] beers
      { beers := unique_beers.take 20, errors := [] }

/-- Lexicographic comparison of character lists by code point, as Python compares
strings: `x <= y` iff `x` is exhausted first, or the first differing position is
smaller in `x`. -/
def charListLe : List Char → List Char → Bool
  | [], _ => true
  | _ :: _, [] => false
  | a :: s, b :: t => if a < b then true else if b < a then false else charListLe s t

/-- Python's `<=` on strings: lexicographic by code point. -/
def strLe (a b : String) : Prop :=
  charListLe a.data b.data = true

instance : DecidableRel strLe :=
  fun a b => inferInstanceAs (Decidable (charListLe a.data b.data = true))

/-- The sorted union computed by `update_available_beers` (lines 80-86): the Python
`set` of old and new names is a duplicate-free collection, and `sorted(list(...))`
lists its elements in ascending lexicographic order (a stable sort producing a
sorted permutation, like Python's `sorted`). -/
def sortedUnion (old nw : List String) : List String :=
  List.insertionSort strLe (dedupFirst [] (old ++ nw))

/-- `update_available_beers` (lines 77-88): union the new names into the stored
available set, sort, persist, and return the new total count together with the
new store. -/
def update_available_beers (new_beers : List String) (store : Option Data) :
    Nat × Option Data :=
  let data := load_data store
  let sortedBeers := sortedUnion data.available_beers new_beers
  (sortedBeers.length, save_data { data with available_beers := sortedBeers })

/-- Outcome of the Refresh-Menu button flow: the resulting store and the
user-visible messages. -/
structure FlowResult where
  store : Option Data
  messages : List String

/-- The "Fetch Beers" button flow (lines 203-216): fetch; when nothing was found,
leave the store alone and warn; otherwise merge into the available set and report. -/
def refresh_menu_flow (resp : HttpResponse) (store : Option Data) : FlowResult :=
  let fr := fetch_starkweather_beers resp
  if fr.beers.isEmpty then
    { store := store,
      messages := fr.errors ++
        ["Could not find beers at that URL. The website structure may have changed."] }
  else
    let res := update_available_beers fr.beers store
    { store := res.2,
      messages := fr.errors ++
        ["Found " ++ toString fr.beers.length ++ " beers! Total available beers: " ++
          toString res.1] }

/-- JSON syntax trees, as far as this document shape needs them. -/
inductive Json where
  | str (s : String)
  | arr (elems : List Json)
  | obj (fields : List (String × Json))

/-- `json.dump` of one consumption record. -/
def encodeRecord (r : Record) : Json :=
  .obj [("name", .str r.name), ("date", .str r.date), ("timestamp", .str r.timestamp)]

/-- `json.dump` of the whole document, keys in the order the program writes them. -/
def encodeData (d : Data) : Json :=
  .obj [("beers", .arr (d.beers.map encodeRecord)),
        ("available_beers", .arr (d.available_beers.map Json.str))]

/-- Field lookup in a decoded JSON object. -/
def getField : List (String × Json) → String → Option Json
  | [], _ => none
  | (k, v) :: rest, key => if k = key then some v else getField rest key

/-- Read a JSON string. -/
def decodeStr : Json → Option String
  | .str s => some s
  | _ => none

/-- Decode every element of a JSON array, in order. -/
def decodeList (dec : Json → Option α) : List Json → Option (List α)
  | [] => some []
  | j :: rest => do
      let x ← dec j
      let xs ← decodeList dec rest
      some (x :: xs)

/-- `json.load` of one consumption record. -/
def decodeRecord : Json → Option Record
  | .obj fields => do
      let nj ← getField fields "name"
      let n ← decodeStr nj
      let dj ← getField fields "date"
      let d ← decodeStr dj
      let tj ← getField fields "timestamp"
      let t ← decodeStr tj
      some { name := n, date := d, timestamp := t }
  | _ => none

/-- `json.load` of the whole document. -/
def decodeData : Json → Option Data
  | .obj fields => do
      let bj ← getField fields "beers"
      let aj ← getField fields "available_beers"
      match bj, aj with
      | .arr bs, .arr avs => do
          let recs ← decodeList decodeRecord bs
          let avail ← decodeList decodeStr avs
          some { beers := recs, available_beers := avail }
      | _, _ => none
  | _ => none

/-! ### Order facts about `strLe` -/

/-- `charListLe x y` holds exactly when `y` is not lexicographically below `x`. -/
theorem charListLe_iff : ∀ x y : List Char, charListLe x y = true ↔ ¬ List.Lex (· < ·) y x
  | [], y => by
      simp [charListLe]
  | a :: s, [] => by
      simp only [charListLe, Bool.false_eq_true, false_iff, not_not]
      exact List.Lex.nil
  | a :: s, b :: t => by
      rcases lt_trichotomy a b with hab | hab | hab
      · simp only [charListLe, if_pos hab, true_iff]
        intro hlex
        cases hlex with
        | cons h => exact absurd hab (lt_irrefl _)
        | rel h => exact absurd hab (asymm h)
      · subst hab
        simp only [charListLe, if_neg (lt_irrefl a)]
        rw [charListLe_iff s t]
        constructor
        · intro h hlex
          cases hlex with
          | cons h2 => exact h h2
          | rel h2 => exact absurd h2 (lt_irrefl a)
        · intro h hlex
          exact h (List.Lex.cons hlex)
      · have h1 : ¬ a < b := asymm hab
        simp only [charListLe, if_neg h1, if_pos hab, Bool.false_eq_true, false_iff, not_not]
        exact List.Lex.rel hab

/-- `strLe` agrees with the standard linear order on `String`. -/
theorem strLe_iff_le (a b : String) : strLe a b ↔ a ≤ b := by
  rw [String.le_iff_toList_le, ← not_lt]
  exact charListLe_iff a.data b.data

instance : IsTotal String strLe :=
  ⟨fun a b => by rw [strLe_iff_le, strLe_iff_le]; exact le_total a b⟩

instance : IsTrans String strLe :=
  ⟨fun a b c h1 h2 =>
    (strLe_iff_le a c).2 (le_trans ((strLe_iff_le a b).1 h1) ((strLe_iff_le b c).1 h2))⟩

instance : IsAntisymm String strLe :=
  ⟨fun a b h1 h2 => le_antisymm ((strLe_iff_le a b).1 h1) ((strLe_iff_le b a).1 h2)⟩

/-! ### Properties of `dedupFirst` and `sortedUnion` -/

/-- Loading an existing file returns its document. -/
theorem load_data_some (d : Data) : load_data (some d) = d :=
  rfl

/-- Membership after the dedup loop: in the input and not previously seen. -/
theorem mem_dedupFirst {x : String} (seen l : List String) :
    x ∈ dedupFirst seen l ↔ x ∈ l ∧ x ∉ seen := by
  induction l generalizing seen with
  | nil => simp [dedupFirst]
  | cons b rest ih =>
    by_cases hb : b ∈ seen
    · rw [dedupFirst, if_pos hb, ih]
      constructor
      · rintro ⟨h1, h2⟩
        exact ⟨List.mem_cons_of_mem _ h1, h2⟩
      · rintro ⟨h1, h2⟩
        rcases List.mem_cons.1 h1 with rfl | h1
        · exact absurd hb h2
        · exact ⟨h1, h2⟩
    · rw [dedupFirst, if_neg hb]
      constructor
      · intro h
        rcases List.mem_cons.1 h with rfl | h
        · exact ⟨List.mem_cons_self _ _, hb⟩
        · rcases (ih _).1 h with ⟨h1, h2⟩
          exact ⟨List.mem_cons_of_mem _ h1, fun hx => h2 (List.mem_cons_of_mem _ hx)⟩
      · rintro ⟨h1, h2⟩
        rcases List.mem_cons.1 h1 with rfl | h1
        · exact List.mem_cons_self _ _
        · by_cases hxb : x = b
          · subst hxb
            exact List.mem_cons_self _ _
          · exact List.mem_cons_of_mem _
              ((ih _).2 ⟨h1, fun hx => (List.mem_cons.1 hx).elim hxb h2⟩)

/-- The dedup loop yields a duplicate-free list. -/
theorem nodup_dedupFirst (seen l : List String) : (dedupFirst seen l).Nodup := by
  induction l generalizing seen with
  | nil => simp [dedupFirst]
  | cons b rest ih =>
    by_cases hb : b ∈ seen
    · rw [dedupFirst, if_pos hb]
      exact ih seen
    · rw [dedupFirst, if_neg hb]
      refine List.nodup_cons.2 ⟨fun hmem => ?_, ih _⟩
      exact ((mem_dedupFirst _ _).1 hmem).2 (List.mem_cons_self b seen)

/-- The merged list holds exactly the names of the two inputs. -/
theorem mem_sortedUnion {x : String} (old nw : List String) :
    x ∈ sortedUnion old nw ↔ x ∈ old ∨ x ∈ nw := by
  unfold sortedUnion
  rw [(List.perm_insertionSort strLe _).mem_iff, mem_dedupFirst]
  simp

/-- The merged list is duplicate-free. -/
theorem nodup_sortedUnion (old nw : List String) : (sortedUnion old nw).Nodup :=
  (List.perm_insertionSort strLe _).nodup_iff.2 (nodup_dedupFirst _ _)

/-- The merged list is sorted. -/
theorem sorted_sortedUnion (old nw : List String) :
    List.Sorted strLe (sortedUnion old nw) :=
  List.sorted_insertionSort strLe _

/-- A sorted duplicate-free list with the same members as a merge result equals it. -/
theorem sortedUnion_eq_of_nodup_sorted {S : List String} (hnd : S.Nodup)
    (hs : List.Sorted strLe S) {old nw : List String}
    (h : ∀ x, x ∈ sortedUnion old nw ↔ x ∈ S) : sortedUnion old nw = S :=
  List.eq_of_perm_of_sorted
    ((List.perm_ext_iff_of_nodup (nodup_sortedUnion old nw) hnd).mpr h)
    (sorted_sortedUnion old nw) hs

/-- `update_available_beers`, written out. -/
theorem update_available_beers_eq (nw : List String) (store : Option Data) :
    update_available_beers nw store =
      ((sortedUnion (load_data store).available_beers nw).length,
        some { beers := (load_data store).beers,
               available_beers := sortedUnion (load_data store).available_beers nw }) :=
  rfl

/-- `add_beer`, written out. -/
theorem add_beer_eq (beer_name : String) (date : Option String) (now_date now_iso : String)
    (store : Option Data) :
    add_beer beer_name date now_date now_iso store =
      some { beers := (load_data store).beers ++
               [{ name := beer_name, date := date.getD now_date, timestamp := now_iso }],
             available_beers := (load_data store).available_beers } := by
  cases date <;> rfl

/-! ### JSON round-trip helpers -/

/-- One record decodes back. -/
theorem decodeRecord_encodeRecord (r : Record) : decodeRecord (encodeRecord r) = some r :=
  rfl

/-- A JSON string decodes back. -/
theorem decodeStr_str (s : String) : decodeStr (Json.str s) = some s :=
  rfl

/-- An element-wise inverse lifts to arrays. -/
theorem decodeList_encode {α : Type} (dec : Json → Option α) (enc : α → Json)
    (h : ∀ x, dec (enc x) = some x) : ∀ l : List α, decodeList dec (l.map enc) = some l
  | [] => rfl
  | x :: t => by
      simp [decodeList, h x, decodeList_encode dec enc h t]

/-- The whole document decodes back. -/
theorem decodeData_encodeData (d : Data) : decodeData (encodeData d) = some d := by
  cases d with
  | mk bs avail =>
    simp [decodeData, encodeData, getField,
      decodeList_encode decodeRecord encodeRecord decodeRecord_encodeRecord,
      decodeList_encode decodeStr Json.str decodeStr_str]

/-! ### The claims -/

/-- Claim C1: for every list of newly scraped names and every stored
available-beer set, `update_available_beers` stores exactly the alphabetically
sorted union of the two (sorted, duplicate-free, with exactly the members of
both inputs), persists it, and returns the size of the resulting set; from an
empty store, merging `["Hazy IPA", "Dark Stout"]` stores
`["Dark Stout", "Hazy IPA"]` and returns 2. -/
theorem update_available_beers_correct (nw : List String) (store : Option Data) :
    (update_available_beers nw store).2 =
        some { beers := (load_data store).beers,
               available_beers := sortedUnion (load_data store).available_beers nw } ∧
    List.Sorted (fun a b : String => a ≤ b)
        (load_data (update_available_beers nw store).2).available_beers ∧
    (∀ x, x ∈ (load_data (update_available_beers nw store).2).available_beers ↔
        x ∈ (load_data store).available_beers ∨ x ∈ nw) ∧
    (update_available_beers nw store).1 =
        (load_data (update_available_beers nw store).2).available_beers.length ∧
    update_available_beers ["Hazy IPA", "Dark Stout"] none =
      (2, some { beers := [], available_beers := ["Dark Stout", "Hazy IPA"] }) := by
  refine ⟨rfl, ?_, ?_, rfl, by decide⟩
  · exact (sorted_sortedUnion _ _).imp (fun h => (strLe_iff_le _ _).1 h)
  · intro x
    exact mem_sortedUnion _ _

/-- Claim C2: a text fragment qualifies as a candidate name iff its length is
strictly between 3 and 100 and (it contains a beer-style keyword
case-insensitively or its length is strictly between 5 and 60); a 2-character
string is rejected, a 101-character string is rejected, a 10-character string
containing "IPA" is accepted, a 10-character string with no keyword is
accepted, a 4-character string with no keyword is rejected. -/
theorem is_candidate_characterization :
    (∀ text : String, is_candidate text = true ↔ candidateSpec text) ∧
    is_candidate "ab" = false ∧
    is_candidate (String.mk (List.replicate 101 'a')) = false ∧
    is_candidate "Great IPAs" = true ∧
    is_candidate "Abcdefghij" = true ∧
    is_candidate "Abcd" = false := by
  refine ⟨?_, by decide, by decide, by decide, by decide, by decide⟩
  intro text
  unfold is_candidate candidateSpec
  simp only [Bool.and_eq_true, Bool.or_eq_true, decide_eq_true_eq, bne_iff_ne, ne_eq,
    List.any_eq_true]
  constructor
  · rintro ⟨⟨⟨hne, h3⟩, h100⟩, hrest⟩
    exact ⟨h3, h100, hrest⟩
  · rintro ⟨h3, h100, hrest⟩
    refine ⟨⟨⟨?_, h3⟩, h100⟩, hrest⟩
    intro he
    subst he
    simp at h3

/-- Claim C3: on any network or HTTP-status failure (a timeout included),
`fetch_starkweather_beers` reports the failure as a visible non-fatal message
and returns the empty list, and the Refresh-Menu flow leaves the stored
available-beer set unchanged. -/
theorem fetch_failure_returns_empty (msg : String) (store : Option Data) :
    fetch_starkweather_beers (HttpResponse.failure msg) =
      { beers := [], errors := ["Error fetching beers: " ++ msg] } ∧
    (refresh_menu_flow (HttpResponse.failure msg) store).store = store ∧
    (refresh_menu_flow (HttpResponse.failure msg) store).messages ≠ [] := by
  refine ⟨rfl, rfl, ?_⟩
  simp [refresh_menu_flow, fetch_starkweather_beers]

/-- Claim C4: the merge is idempotent — merging the same list twice yields the
same stored set as merging it once, and re-merging any list of
previously-stored names never changes the stored set. -/
theorem update_available_beers_idempotent (nw sub : List String) (store : Option Data)
    (hsub : ∀ x ∈ sub,
      x ∈ (load_data (update_available_beers nw store).2).available_beers) :
    (update_available_beers nw (update_available_beers nw store).2).2 =
        (update_available_beers nw store).2 ∧
    (update_available_beers sub (update_available_beers nw store).2).2 =
        (update_available_beers nw store).2 := by
  have key : ∀ ns : List String,
      (∀ x ∈ ns, x ∈ sortedUnion (load_data store).available_beers nw) →
      (update_available_beers ns (update_available_beers nw store).2).2 =
        (update_available_beers nw store).2 := by
    intro ns hns
    have hS : sortedUnion (sortedUnion (load_data store).available_beers nw) ns =
        sortedUnion (load_data store).available_beers nw := by
      apply sortedUnion_eq_of_nodup_sorted (nodup_sortedUnion _ _) (sorted_sortedUnion _ _)
      intro x
      rw [mem_sortedUnion]
      exact ⟨fun h => h.elim id (hns x), Or.inl⟩
    rw [update_available_beers_eq nw store, update_available_beers_eq ns]
    simp only [load_data_some]
    rw [hS]
  exact ⟨key nw (fun x hx => (mem_sortedUnion _ _).2 (Or.inr hx)),
    key sub (fun x hx => hsub x hx)⟩

/-- Witness for C4 at a concrete input. -/
theorem update_available_beers_idempotent_witness :
    (update_available_beers ["b", "a"] (update_available_beers ["b", "a"] none).2).2 =
        (update_available_beers ["b", "a"] none).2 ∧
    (update_available_beers ["a"] (update_available_beers ["b", "a"] none).2).2 =
        (update_available_beers ["b", "a"] none).2 :=
  update_available_beers_idempotent ["b", "a"] ["a"] none (by decide)

/-- Claim C5: the merge is monotonic — every previously stored name is still
stored afterwards, and the stored set's size never decreases. -/
theorem update_available_beers_monotonic (nw : List String) (store : Option Data)
    (hnd : (load_data store).available_beers.Nodup) :
    (∀ x ∈ (load_data store).available_beers,
        x ∈ (load_data (update_available_beers nw store).2).available_beers) ∧
    (load_data store).available_beers.length ≤
        (load_data (update_available_beers nw store).2).available_beers.length := by
  constructor
  · intro x hx
    exact (mem_sortedUnion _ _).2 (Or.inl hx)
  · refine List.Subperm.length_le (List.subperm_of_subset hnd ?_)
    intro x hx
    exact (mem_sortedUnion _ _).2 (Or.inl hx)

/-- Witness for C5 at a concrete input. -/
theorem update_available_beers_monotonic_witness :
    (∀ x ∈ (load_data (some { beers := [], available_beers := ["x"] })).available_beers,
        x ∈ (load_data (update_available_beers ["y"]
          (some { beers := [], available_beers := ["x"] })).2).available_beers) ∧
    (load_data (some { beers := [], available_beers := ["x"] })).available_beers.length ≤
        (load_data (update_available_beers ["y"]
          (some { beers := [], available_beers := ["x"] })).2).available_beers.length :=
  update_available_beers_monotonic ["y"] (some { beers := [], available_beers := ["x"] })
    (by decide)

/-- Claim C6: the scraper removes duplicates preserving first-seen order
(`["A", "B", "A", "C"]` dedups to `["A", "B", "C"]`) and truncates to the first
20 candidates, so its returned list has distinct elements and length at most 20. -/
theorem scraper_dedup_truncate :
    (∀ resp : HttpResponse, (fetch_starkweather_beers resp).beers.Nodup ∧
        (fetch_starkweather_beers resp).beers.length ≤ 20) ∧
    dedupFirst [] ["A", "B", "A", "C"] = ["A", "B", "C"] ∧
    (∀ texts : List String,
      (fetch_starkweather_beers (HttpResponse.ok texts)).beers =
        (dedupFirst [] (texts.filter (fun t => is_candidate t))).take 20) := by
  refine ⟨?_, by decide, fun texts => rfl⟩
  intro resp
  cases resp with
  | failure msg => exact ⟨List.nodup_nil, Nat.zero_le 20⟩
  | ok texts =>
      constructor
      · exact (List.take_sublist _ _).nodup (nodup_dedupFirst _ _)
      · exact List.length_take_le _ _

/-- Claim C7: `add_beer` appends exactly one record — with the given name, the
given date (or the current date when none is supplied) and the current
date-time as creation timestamp — persists the document, the record count grows
by exactly one, and all prior records are unchanged in value and order. -/
theorem add_beer_appends_record (beer_name : String) (date : Option String)
    (now_date now_iso : String) (store : Option Data) :
    add_beer beer_name date now_date now_iso store =
      some { beers := (load_data store).beers ++
               [{ name := beer_name, date := date.getD now_date, timestamp := now_iso }],
             available_beers := (load_data store).available_beers } ∧
    (load_data (add_beer beer_name date now_date now_iso store)).beers.length =
      (load_data store).beers.length + 1 ∧
    (load_data (add_beer beer_name date now_date now_iso store)).beers.take
        (load_data store).beers.length = (load_data store).beers := by
  refine ⟨add_beer_eq _ _ _ _ _, ?_, ?_⟩
  · rw [add_beer_eq]
    simp [load_data]
  · rw [add_beer_eq]
    simp only [load_data]
    exact List.take_left _ _

/-- Claim C8: a document written by `save_data` and read back by `load_data` is
unchanged, and its JSON encoding decodes back to the same document — field
values and the order of both arrays preserved. -/
theorem save_load_roundtrip (d : Data) :
    load_data (save_data d) = d ∧ decodeData (encodeData d) = some d :=
  ⟨rfl, decodeData_encodeData d⟩

/-- Claim C9: when no stored file exists, `load_data` returns the empty default
document: no consumption records and no available beers. -/
theorem load_data_default :
    load_data none = { beers := [], available_beers := [] } :=
  rfl

/-- Claim C10: `add_beer` leaves the persisted available-beer list exactly as it
was, and `update_available_beers` leaves the persisted consumption-record list
exactly as it was. -/
theorem frame_conditions (beer_name : String) (date : Option String)
    (now_date now_iso : String) (nw : List String) (store : Option Data) :
    (load_data (add_beer beer_name date now_date now_iso store)).available_beers =
        (load_data store).available_beers ∧
    (load_data (update_available_beers nw store).2).beers = (load_data store).beers := by
  constructor
  · rw [add_beer_eq, load_data_some]
  · rfl
